import Mathlib

/-!
# linyaps: container lifecycle of `PackageManager` and the OCI runtime model

A shallow embedding of `src/service/impl/package_manager.cpp`
(`PackageManager::Start`, its job lambda, `Stop`, `ListContainer`) and of the
property classes of `src/module/runtime/oci.h`.

* `QMap` is Qt's ordered map with unique keys, kept as a list of entries in
  ascending key order.
* Calls that leave the service (`kill`, `getAppInstalledStatus`,
  `getUserName`, `appConfigPath`, `fileExists`, `App::load`, `App::start`)
  are fields of `Env`: every theorem quantifies over them.
* `JobManager::CreateJob` queues the captured lambda; `runJob` is its body.
-/

namespace Linglong

/-! ## QMap -/

/-- Qt's `QMap<QString, T>`: the entries, in ascending key order. -/
structure QMap (α : Type) where
  entries : List (String × α)
deriving DecidableEq, Repr

namespace QMap

variable {α : Type}

/-- An empty map, `QMap()`. -/
def empty : QMap α := ⟨[]⟩

/-- `QMap::empty()`. -/
def isEmpty (m : QMap α) : Bool := m.entries.isEmpty

/-- `QMap::size()`. -/
def size (m : QMap α) : Nat := m.entries.length

/-- `QMap::contains(key)`. -/
def contains (m : QMap α) (key : String) : Bool :=
  m.entries.any (fun e => e.1 == key)

/-- `QMap::find(key)`: the value stored under `key`, if any. -/
def find (m : QMap α) (key : String) : Option α :=
  (m.entries.find? (fun e => e.1 == key)).map (fun e => e.2)

/-- `QMap::value(key)` and `operator[]` on a const map: the stored value, or
a default-constructed one. -/
def value (m : QMap α) (key : String) (dflt : α) : α :=
  (m.find key).getD dflt

/-- `QMap::remove(key)`: removes all the items that have the key. -/
def remove (m : QMap α) (key : String) : QMap α :=
  ⟨m.entries.filter (fun e => e.1 != key)⟩

/-- Insertion into the ordered entry list; an entry with an equal key has its
value replaced. -/
def insertEntry (key : String) (v : α) : List (String × α) → List (String × α)
  | [] => [(key, v)]
  | (k, w) :: rest =>
    if key = k then (key, v) :: rest
    else if key < k then (key, v) :: (k, w) :: rest
    else (k, w) :: insertEntry key v rest

/-- The assignment `m[key] = v` (`operator[]` followed by `=`), the same as
`QMap::insert(key, v)`: if there is already an item with the key, that item's
value is replaced with `v`. -/
def insert (m : QMap α) (key : String) (v : α) : QMap α :=
  ⟨insertEntry key v m.entries⟩

/-- The keys, in iteration order (`QMap::keys()`). -/
def keys (m : QMap α) : List String := m.entries.map (fun e => e.1)

/-- The representation invariant of the map: keys strictly ascending, hence
unique. -/
def WF (m : QMap α) : Prop := m.keys.Pairwise (fun a b => a < b)

/-- The values, in iteration order (what a range-for over the map visits). -/
def values (m : QMap α) : List α := m.entries.map (fun e => e.2)

end QMap

/-! ## Results, containers and handles -/

/-- The members of `linglong::dbus::RetCode` (dbus_retcode.h) that `Start` and
`Stop` use. -/
inductive RetCode
  | user_input_param_err
  | pkg_not_installed
  | ErrorPkgKillFailed
deriving DecidableEq, Repr

/-- A `RetMessage`: `code`, `message`, `state`. -/
structure RetMessage where
  code : RetCode
  message : String
  state : Bool
deriving DecidableEq, Repr

/-- `RetMessageList`. -/
abbrev RetMessageList := List RetMessage

/-- `ParamStringMap`: `QMap<QString, QString>`. -/
abbrev ParamStringMap := QMap String

/-- A `Container` as far as the service reads it: `ID` and `PID`. -/
structure Container where
  ID : String
  PID : Int
deriving DecidableEq, Repr

/-- `ContainerList`. -/
abbrev ContainerList := List Container

/-- An `App` (module/runtime/app.h), the handle the registry points to; the
service only reaches its `container()`. -/
structure App where
  container : Container
deriving DecidableEq, Repr

/-- `SIGKILL` of `<signal.h>`. -/
def SIGKILL : Nat := 9

/-- The captures of the lambda handed to `JobManager::CreateJob` by `Start`
(`[=]`: `packageID`, `version`, `desktopExec`, `paramMap`). -/
structure Job where
  packageID : String
  version : String
  desktopExec : String
  paramMap : ParamStringMap
deriving DecidableEq, Repr

/-- The state `Start`, the job, `Stop` and `ListContainer` act on. -/
structure PackageManager where
  /-- The registry `d->apps` of `PackageManagerPrivate`. -/
  apps : QMap App
  /-- The jobs handed to `JobManager::CreateJob`, oldest first. -/
  jobs : List Job
  /-- Every `kill(pid, sig)` issued, oldest first. -/
  signals : List (Int × Nat)
  /-- Every handle `app->start()` was called on, oldest first. -/
  launches : List App
deriving DecidableEq, Repr

/-- The collaborators outside `package_manager.cpp`. -/
structure Env where
  /-- The key `linglong::util::KEY_VERSION`. -/
  KEY_VERSION : String
  /-- The key `linglong::util::KEY_EXEC`. -/
  KEY_EXEC : String
  /-- The key `linglong::util::KEY_REPO_POINT`. -/
  KEY_REPO_POINT : String
  /-- The result of `getUserName()`. -/
  getUserName : String
  /-- The installed-status check `getAppInstalledStatus(pkg, version, arch, user)`. -/
  getAppInstalledStatus : String → String → String → String → Bool
  /-- The path `appConfigPath(appID, appVersion, isFlatpakApp)` returns. -/
  appConfigPath : String → String → Bool → String
  /-- The check `fileExists(path)`. -/
  fileExists : String → Bool
  /-- The call `App::load(configPath, desktopExec, isFlatpakApp)`; `none` is `nullptr`. -/
  load : String → String → Bool → Option App
  /-- Modelled from the spec: `App::start` (module/runtime/app.h) is the
  runtime's `launch(RuntimeSpec) → PID | LaunchError`; `some pid` is the
  process identifier of the started process, recorded in the handle, and
  `none` a launch failure. -/
  start : App → Option Int
  /-- The return value of `kill(pid, sig)`. -/
  kill : Int → Nat → Int

/-- The handle after `app->start()`: on a successful launch its container
carries the new process identifier. -/
def App.afterStart (app : App) : Option Int → App
  | some pid => { app with container := { app.container with PID := pid } }
  | none => app

/-! ## PackageManager::Start, the job, Stop, ListContainer -/

/-- The read `m.empty() || !m.contains(k) ? dflt : m[k]` that `Start` does for
its two optional parameters. -/
def paramOr (paramMap : ParamStringMap) (key : String) (dflt : String) : String :=
  if !paramMap.isEmpty && paramMap.contains key then paramMap.value key "" else dflt

/-- `PackageManager::Start(packageID, paramMap)`. -/
def Start (env : Env) (s : PackageManager) (packageID : String)
    (paramMap : ParamStringMap) : RetMessageList × PackageManager :=
  let version := paramOr paramMap env.KEY_VERSION ""
  let desktopExec := paramOr paramMap env.KEY_EXEC ""
  let userName := env.getUserName
  if !env.getAppInstalledStatus packageID version "" userName then
    let err := packageID ++ " not installed"
    ([{ code := RetCode.pkg_not_installed, message := err, state := false }], s)
  else
    ([], { s with jobs := s.jobs ++ [{ packageID := packageID, version := version,
                                       desktopExec := desktopExec, paramMap := paramMap }] })

/-- The flag `isFlatpakApp` of the job:
`!paramMap.empty() && paramMap.contains(KEY_REPO_POINT)`. -/
def Job.isFlatpakApp (env : Env) (j : Job) : Bool :=
  !j.paramMap.isEmpty && j.paramMap.contains env.KEY_REPO_POINT

/-- The `configPath` of the job: `appConfigPath(packageID, version, isFlatpakApp)`. -/
def Job.configPath (env : Env) (j : Job) : String :=
  env.appConfigPath j.packageID j.version (j.isFlatpakApp env)

/-- The body of the lambda `Start` hands to `CreateJob`. The handle is stored
in the registry first and started afterwards; the result of `app->start()` is
not looked at. The registry holds a pointer to the handle, so what `start`
writes into the handle is what the registry entry shows. -/
def runJob (env : Env) (s : PackageManager) (j : Job) : PackageManager :=
  let isFlatpakApp := j.isFlatpakApp env
  let configPath := j.configPath env
  if !env.fileExists configPath then s
  else
    match env.load configPath j.desktopExec isFlatpakApp with
    | none => s
    | some app =>
      { s with apps := s.apps.insert app.container.ID (app.afterStart (env.start app)),
               launches := s.launches ++ [app] }

/-- What the job has built when it reaches the registry: the handle
`App::load` returned for an existing configuration file, `none` when the file
is missing or `App::load` returned `nullptr`. -/
def Job.built (env : Env) (j : Job) : Option App :=
  if env.fileExists (j.configPath env) then
    env.load (j.configPath env) j.desktopExec (j.isFlatpakApp env)
  else none

/-- `PackageManager::Stop(containerID)`. The test `!d->apps.contains(containerID)`
and the read `d->apps[containerID]` that follows it are one lookup here:
`find` is `none` exactly when `contains` is false. The `kill` is logged
whatever it returns. -/
def Stop (env : Env) (s : PackageManager) (containerID : String) :
    RetMessageList × PackageManager :=
  match s.apps.find containerID with
  | none =>
    let err := "containerID:" ++ containerID ++ " not exist"
    ([{ code := RetCode.user_input_param_err, message := err, state := false }], s)
  | some app =>
    let pid := app.container.PID
    let ret := env.kill pid SIGKILL
    let s1 := { s with signals := s.signals ++ [(pid, SIGKILL)] }
    if ret = 0 then
      ([], { s1 with apps := s1.apps.remove containerID })
    else
      let err := "kill container failed, containerID:" ++ containerID
      ([{ code := RetCode.ErrorPkgKillFailed, message := err, state := false }], s1)

/-- `PackageManager::ListContainer()`. -/
def ListContainer (s : PackageManager) : ContainerList × PackageManager :=
  (s.apps.values.map (fun app => { ID := app.container.ID, PID := app.container.PID }), s)

/-! ## The runtime model of oci.h -/

/-- `Root`: `path`, `readonly`. -/
structure Root where
  path : String
  readonly : Bool
deriving DecidableEq, Repr

/-- `Namespace`: `type`. -/
structure Namespace where
  type : String
deriving DecidableEq, Repr

/-- `IDMap`: `hostID`, `containerID`, `size` (each a `quint64`; no arithmetic
is done on them). -/
structure IDMap where
  hostID : Nat
  containerID : Nat
  size : Nat
deriving DecidableEq, Repr

/-- `Linux`: `namespaces`, `uidMappings`, `gidMappings`. -/
structure Linux where
  namespaces : List Namespace
  uidMappings : List IDMap
  gidMappings : List IDMap
deriving DecidableEq, Repr

/-- `Process`: `args`, `env`, `cwd`. -/
structure Process where
  args : List String
  env : List String
  cwd : String
deriving DecidableEq, Repr

/-- `Mount`: `destination`, `type`, `source`, `options`. -/
structure Mount where
  destination : String
  type : String
  source : String
  options : List String
deriving DecidableEq, Repr

/-- `Hook`: `path`, `args`, `env`. -/
structure Hook where
  path : String
  args : List String
  env : List String
deriving DecidableEq, Repr

/-- `Hooks`: `prestart`, `poststart`, `poststop`. -/
structure Hooks where
  prestart : List Hook
  poststart : List Hook
  poststop : List Hook
deriving DecidableEq, Repr

/-- `Runtime`: `ociVersion`, `root`, `process`, `hostname`, `mounts`, `linux`,
`hooks`. The four members declared with `Q_JSON_PTR_PROPERTY` are held by
value: a property bag with every member set. -/
structure Runtime where
  ociVersion : String
  root : Root
  process : Process
  hostname : String
  mounts : List Mount
  linux : Linux
  hooks : Hooks
deriving DecidableEq, Repr

/-! ## Serialization (module/util/json.h) -/

/-- The error kinds of the design (section 7 of the specification). -/
inductive ErrorKind
  | InvalidInput
  | InvalidSpec
  | NotInstalled
  | DuplicateContainer
  | ContainerNotFound
  | LaunchFailed
  | TerminationFailed
  | ResolutionError
deriving DecidableEq, Repr

/-- Modelled from the spec: the structured document a `RuntimeSpec` is
serialized to and read from; `JsonSerialize` and the `Q_JSON_*` macros of
module/util/json.h are not part of the sources at hand. -/
inductive JsonValue
  | null
  | bool (b : Bool)
  | num (n : Nat)
  | str (s : String)
  | arr (items : List JsonValue)
  | obj (members : List (String × JsonValue))

namespace JsonValue

/-- The member `name` of an object; `none` for a missing member and for a
document that is not an object. -/
def field (j : JsonValue) (name : String) : Option JsonValue :=
  match j with
  | obj members => (members.find? (fun m => m.1 == name)).map (fun m => m.2)
  | _ => none

/-- A string document. -/
def asString : JsonValue → Option String
  | str s => some s
  | _ => none

/-- A boolean document. -/
def asBool : JsonValue → Option Bool
  | bool b => some b
  | _ => none

/-- A number document. -/
def asNat : JsonValue → Option Nat
  | num n => some n
  | _ => none

/-- Reads every item with `f`; fails as soon as one item fails. -/
def readAll {α : Type} (f : JsonValue → Option α) : List JsonValue → Option (List α)
  | [] => some []
  | j :: js =>
    match f j with
    | none => none
    | some a =>
      match readAll f js with
      | none => none
      | some as => some (a :: as)

/-- An array document, each item read with `f`. -/
def asList {α : Type} (f : JsonValue → Option α) : JsonValue → Option (List α)
  | arr items => readAll f items
  | _ => none

/-- A list of strings as a document (`QStringList`). -/
def ofStrings (l : List String) : JsonValue := arr (l.map str)

/-- A document holding a list of strings. -/
def asStrings : JsonValue → Option (List String) := asList asString

end JsonValue

open JsonValue

/-- Modelled from the spec: the document of a `Root`, member names as in oci.h. -/
def Root.toJson (x : Root) : JsonValue :=
  obj [("path", str x.path), ("readonly", bool x.readonly)]

/-- Modelled from the spec: reads a `Root`; every member is required. -/
def Root.fromJson (j : JsonValue) : Option Root := do
  let path ← (← j.field "path").asString
  let readonly ← (← j.field "readonly").asBool
  pure { path := path, readonly := readonly }

/-- Modelled from the spec: the document of a `Namespace`. -/
def Namespace.toJson (x : Namespace) : JsonValue :=
  obj [("type", str x.type)]

/-- Modelled from the spec: reads a `Namespace`. -/
def Namespace.fromJson (j : JsonValue) : Option Namespace := do
  let type ← (← j.field "type").asString
  pure { type := type }

/-- Modelled from the spec: the document of an `IDMap`. -/
def IDMap.toJson (x : IDMap) : JsonValue :=
  obj [("hostID", num x.hostID), ("containerID", num x.containerID), ("size", num x.size)]

/-- Modelled from the spec: reads an `IDMap`. -/
def IDMap.fromJson (j : JsonValue) : Option IDMap := do
  let hostID ← (← j.field "hostID").asNat
  let containerID ← (← j.field "containerID").asNat
  let size ← (← j.field "size").asNat
  pure { hostID := hostID, containerID := containerID, size := size }

/-- Modelled from the spec: the document of a `Linux`. -/
def Linux.toJson (x : Linux) : JsonValue :=
  obj [("namespaces", arr (x.namespaces.map Namespace.toJson)),
       ("uidMappings", arr (x.uidMappings.map IDMap.toJson)),
       ("gidMappings", arr (x.gidMappings.map IDMap.toJson))]

/-- Modelled from the spec: reads a `Linux`; the namespaces and both ID maps
are required, none is defaulted. -/
def Linux.fromJson (j : JsonValue) : Option Linux := do
  let namespaces ← (← j.field "namespaces").asList Namespace.fromJson
  let uidMappings ← (← j.field "uidMappings").asList IDMap.fromJson
  let gidMappings ← (← j.field "gidMappings").asList IDMap.fromJson
  pure { namespaces := namespaces, uidMappings := uidMappings, gidMappings := gidMappings }

/-- Modelled from the spec: the document of a `Process`. -/
def Process.toJson (x : Process) : JsonValue :=
  obj [("args", ofStrings x.args), ("env", ofStrings x.env), ("cwd", str x.cwd)]

/-- Modelled from the spec: reads a `Process`. -/
def Process.fromJson (j : JsonValue) : Option Process := do
  let args ← (← j.field "args").asStrings
  let env ← (← j.field "env").asStrings
  let cwd ← (← j.field "cwd").asString
  pure { args := args, env := env, cwd := cwd }

/-- Modelled from the spec: the document of a `Mount`. -/
def Mount.toJson (x : Mount) : JsonValue :=
  obj [("destination", str x.destination), ("type", str x.type),
       ("source", str x.source), ("options", ofStrings x.options)]

/-- Modelled from the spec: reads a `Mount`. -/
def Mount.fromJson (j : JsonValue) : Option Mount := do
  let destination ← (← j.field "destination").asString
  let type ← (← j.field "type").asString
  let source ← (← j.field "source").asString
  let options ← (← j.field "options").asStrings
  pure { destination := destination, type := type, source := source, options := options }

/-- Modelled from the spec: the document of a `Hook`. -/
def Hook.toJson (x : Hook) : JsonValue :=
  obj [("path", str x.path), ("args", ofStrings x.args), ("env", ofStrings x.env)]

/-- Modelled from the spec: reads a `Hook`. -/
def Hook.fromJson (j : JsonValue) : Option Hook := do
  let path ← (← j.field "path").asString
  let args ← (← j.field "args").asStrings
  let env ← (← j.field "env").asStrings
  pure { path := path, args := args, env := env }

/-- Modelled from the spec: the document of a `Hooks`. -/
def Hooks.toJson (x : Hooks) : JsonValue :=
  obj [("prestart", arr (x.prestart.map Hook.toJson)),
       ("poststart", arr (x.poststart.map Hook.toJson)),
       ("poststop", arr (x.poststop.map Hook.toJson))]

/-- Modelled from the spec: reads a `Hooks`. -/
def Hooks.fromJson (j : JsonValue) : Option Hooks := do
  let prestart ← (← j.field "prestart").asList Hook.fromJson
  let poststart ← (← j.field "poststart").asList Hook.fromJson
  let poststop ← (← j.field "poststop").asList Hook.fromJson
  pure { prestart := prestart, poststart := poststart, poststop := poststop }

/-- Modelled from the spec: the document of a `Runtime`, keyed by schema
version, root, process, hostname, mounts, Linux configuration and hooks. -/
def Runtime.toJson (x : Runtime) : JsonValue :=
  obj [("ociVersion", str x.ociVersion), ("root", x.root.toJson),
       ("process", x.process.toJson), ("hostname", str x.hostname),
       ("mounts", arr (x.mounts.map Mount.toJson)), ("linux", x.linux.toJson),
       ("hooks", x.hooks.toJson)]

/-- Modelled from the spec: reads the members of a `Runtime`; a document that
lacks one of them is rejected. -/
def Runtime.fromJson (j : JsonValue) : Option Runtime := do
  let ociVersion ← (← j.field "ociVersion").asString
  let root ← Root.fromJson (← j.field "root")
  let process ← Process.fromJson (← j.field "process")
  let hostname ← (← j.field "hostname").asString
  let mounts ← (← j.field "mounts").asList Mount.fromJson
  let linux ← Linux.fromJson (← j.field "linux")
  let hooks ← Hooks.fromJson (← j.field "hooks")
  pure { ociVersion := ociVersion, root := root, process := process, hostname := hostname,
         mounts := mounts, linux := linux, hooks := hooks }

/-- Whether some string occurs twice in the list. -/
def hasDuplicate : List String → Bool
  | [] => false
  | x :: xs => xs.contains x || hasDuplicate xs

/-- Modelled from the spec: the structural checks of section 4.1; the classes
of oci.h carry no check of their own. Passes when `args` is not empty, no
mount destination collides, no namespace kind repeats and no ID-mapping size
is zero. -/
def Runtime.check (r : Runtime) : Bool :=
  !r.process.args.isEmpty
    && !hasDuplicate (r.mounts.map (fun m => m.destination))
    && !hasDuplicate (r.linux.namespaces.map (fun n => n.type))
    && r.linux.uidMappings.all (fun m => m.size != 0)
    && r.linux.gidMappings.all (fun m => m.size != 0)

/-- Modelled from the spec: construction of a `RuntimeSpec` from its members;
it fails with `InvalidSpec` when a check of section 4.1 fails and hands out
the specification otherwise. -/
def Runtime.construct (r : Runtime) : Except ErrorKind Runtime :=
  if r.check then Except.ok r else Except.error ErrorKind.InvalidSpec

/-- Modelled from the spec: `serialize`, total on every `Runtime`. -/
def serialize (r : Runtime) : JsonValue := r.toJson

/-- Modelled from the spec: `deserialize`: reads the members and constructs
the `RuntimeSpec` from them. -/
def deserialize (j : JsonValue) : Except ErrorKind Runtime :=
  match Runtime.fromJson j with
  | none => Except.error ErrorKind.InvalidSpec
  | some r => r.construct

/-- The invariants of a `RuntimeSpec` (section 3 of the specification): `args`
is never empty, mount destinations are unique, namespace kinds are unique and
every ID-mapping size is positive. -/
def Runtime.Valid (r : Runtime) : Prop :=
  r.process.args ≠ []
    ∧ (r.mounts.map (fun m => m.destination)).Nodup
    ∧ (r.linux.namespaces.map (fun n => n.type)).Nodup
    ∧ (∀ m ∈ r.linux.uidMappings, 0 < m.size)
    ∧ (∀ m ∈ r.linux.gidMappings, 0 < m.size)

/-- Modelled from the spec: `App::load` (module/runtime/app.h) as far as the
specification is concerned: the members `r` read from the configuration are
constructed into a `RuntimeSpec`, and a handle is made of it with `mk` only
when construction succeeds; `none` is the `nullptr` of a failed load. -/
def loadSpec (r : Runtime) (mk : Runtime → App) : Option App :=
  match r.construct with
  | Except.ok v => some (mk v)
  | Except.error _ => none

/-! ## Sample inputs -/

/-- A handle of container `c1`, process 100. -/
def sampleApp : App := { container := { ID := "c1", PID := 100 } }

/-- A freshly loaded handle that also names container `c1`, not yet started. -/
def sampleReload : App := { container := { ID := "c1", PID := 0 } }

/-- A service state whose registry holds `sampleApp` under `c1`. -/
def sampleState : PackageManager :=
  { apps := QMap.empty.insert "c1" sampleApp, jobs := [], signals := [], launches := [] }

/-- A service state with an empty registry. -/
def emptyState : PackageManager :=
  { apps := QMap.empty, jobs := [], signals := [], launches := [] }

/-- Collaborators for which every application is installed, every
configuration exists, `App::load` hands out `sampleReload`, the launch fails
and `kill` succeeds. -/
def sampleEnv : Env :=
  { KEY_VERSION := "version", KEY_EXEC := "exec", KEY_REPO_POINT := "repo-point",
    getUserName := "user",
    getAppInstalledStatus := fun _ _ _ _ => true,
    appConfigPath := fun appID _ _ => appID ++ "/app.yaml",
    fileExists := fun _ => true,
    load := fun _ _ _ => some sampleReload,
    start := fun _ => none,
    kill := fun _ _ => 0 }

/-- The job `Start("org.test.app1", {})` queues. -/
def sampleJob : Job :=
  { packageID := "org.test.app1", version := "", desktopExec := "", paramMap := QMap.empty }

/-- A runtime specification that runs `/bin/true` with one mount, one
namespace and one mapping each for users and groups. -/
def sampleRuntime : Runtime :=
  { ociVersion := "1.0.1",
    root := { path := "/run/user/1000/linglong/c1/root", readonly := false },
    process := { args := ["/bin/true"], env := ["PATH=/usr/bin"], cwd := "/" },
    hostname := "linglong",
    mounts := [{ destination := "/proc", type := "proc", source := "proc", options := [] }],
    linux := { namespaces := [{ type := "pid" }],
               uidMappings := [{ hostID := 1000, containerID := 0, size := 1 }],
               gidMappings := [{ hostID := 1000, containerID := 0, size := 1 }] },
    hooks := { prestart := [{ path := "/bin/true", args := [], env := [] }],
               poststart := [], poststop := [] } }

/-- The members of `sampleRuntime` with `/proc` mounted a second time. -/
def sampleTwoMounts : Runtime :=
  { sampleRuntime with
    mounts := [{ destination := "/proc", type := "proc", source := "proc", options := [] },
               { destination := "/proc", type := "tmpfs", source := "tmpfs", options := [] }] }

/-! ## Sequences of calls -/

/-- One step of the service: a call of `Start`, the run of a job body, a call
of `Stop` or a call of `ListContainer`, each with the collaborators it meets. -/
inductive Op
  | start (env : Env) (packageID : String) (paramMap : ParamStringMap)
  | job (env : Env) (j : Job)
  | stop (env : Env) (containerID : String)
  | list

/-- The service state after one step. -/
def Op.apply (s : PackageManager) : Op → PackageManager
  | Op.start env packageID paramMap => (Start env s packageID paramMap).2
  | Op.job env j => runJob env s j
  | Op.stop env containerID => (Stop env s containerID).2
  | Op.list => (ListContainer s).2

/-- The service state after a sequence of steps, first step first. -/
def run (ops : List Op) (s : PackageManager) : PackageManager :=
  ops.foldl Op.apply s

/-- Every registry key is the container ID stored in the handle it maps to. -/
def KeyedByID (m : QMap App) : Prop :=
  ∀ e ∈ m.entries, e.1 = e.2.container.ID

/-! ## Lemmas on QMap -/

namespace QMap

variable {α : Type}

theorem find_eq_none_of_contains_eq_false (m : QMap α) (key : String)
    (h : m.contains key = false) : m.find key = none := by
  cases m with
  | mk entries =>
    induction entries with
    | nil => rfl
    | cons e rest ih =>
      simp only [contains, List.any_cons, Bool.or_eq_false_iff] at h
      simp only [find, List.find?_cons, h.1]
      simpa [find, contains] using ih h.2

theorem contains_eq_true_of_find_eq_some (m : QMap α) (key : String) (v : α)
    (h : m.find key = some v) : m.contains key = true := by
  cases hc : m.contains key with
  | true => rfl
  | false =>
    rw [find_eq_none_of_contains_eq_false m key hc] at h
    cases h

theorem contains_remove_self (m : QMap α) (key : String) :
    (m.remove key).contains key = false := by
  simp [contains, remove]

theorem find_remove_of_ne (m : QMap α) (key k : String) (h : k ≠ key) :
    (m.remove key).find k = m.find k := by
  cases m with
  | mk entries =>
    simp only [find, remove]
    induction entries with
    | nil => rfl
    | cons e rest ih =>
      obtain ⟨k0, w⟩ := e
      by_cases he : k0 = key
      · have hk : ¬ k0 = k := fun hk => h (hk.symm.trans he)
        have hf : ((k0 != key) = false) := by simp [he]
        rw [List.filter_cons]
        simp only [hf, List.find?_cons]
        have hb : ((k0 == k) = false) := by simp [hk]
        simp only [hb]
        exact ih
      · have hf : ((k0 != key) = true) := by simp [he]
        rw [List.filter_cons]
        simp only [hf, List.find?_cons, if_true]
        cases hb : (k0 == k) with
        | true => rfl
        | false => exact ih

theorem find_insert_self (m : QMap α) (key : String) (v : α) :
    (m.insert key v).find key = some v := by
  cases m with
  | mk entries =>
    simp only [find, insert]
    induction entries with
    | nil => simp [insertEntry]
    | cons e rest ih =>
      obtain ⟨k, w⟩ := e
      simp only [insertEntry]
      split
      · simp
      · split
        · simp
        · rename_i hne _
          have hk : ¬ k = key := fun hk => hne hk.symm
          simpa [List.find?_cons, hk] using ih

theorem keys_insert_of_contains (m : QMap α) (key : String) (v : α) (hwf : m.WF)
    (h : m.contains key = true) : (m.insert key v).keys = m.keys := by
  cases m with
  | mk entries =>
    simp only [WF, keys, insert, contains] at hwf h ⊢
    induction entries with
    | nil => simp at h
    | cons e rest ih =>
      obtain ⟨k, w⟩ := e
      simp only [List.map_cons, List.pairwise_cons, List.mem_map, forall_exists_index,
        and_imp, forall_apply_eq_imp_iff₂] at hwf
      simp only [insertEntry]
      split
      · rename_i heq
        simp [heq]
      · rename_i hne
        have hk : (k == key) = false := by
          simp only [beq_eq_false_iff_ne, ne_eq]
          exact fun hk => hne hk.symm
        simp only [List.any_cons, hk, Bool.false_or] at h
        split
        · rename_i hlt
          obtain ⟨e, he, hek⟩ := List.any_eq_true.1 h
          have hkey : e.1 = key := by simpa using hek
          have := hwf.1 e he
          rw [hkey] at this
          exact absurd this (lt_asymm hlt)
        · simp only [List.map_cons, List.cons.injEq, true_and]
          exact ih hwf.2 h

theorem find_insert_of_ne (m : QMap α) (key k : String) (v : α) (h : k ≠ key) :
    (m.insert key v).find k = m.find k := by
  cases m with
  | mk entries =>
    simp only [find, insert]
    induction entries with
    | nil =>
      have hk : ¬ key = k := fun hk => h hk.symm
      simp [insertEntry, hk]
    | cons e rest ih =>
      obtain ⟨k0, w⟩ := e
      have hk : ¬ key = k := fun hk => h hk.symm
      simp only [insertEntry]
      split
      · rename_i heq
        subst heq
        simp [List.find?_cons, hk]
      · split
        · simp [List.find?_cons, hk]
        · by_cases h0 : k0 = k
          · simp [List.find?_cons, h0]
          · simpa [List.find?_cons, h0] using ih

end QMap

/-! ## Stop -/

/-- C1: for every registry state and every containerID that is not a key of
the registry, Stop returns exactly one message, a failure (state false) that
says the container does not exist, sends no signal and leaves the registry
(indeed the whole service state) as it was. -/
theorem Stop_absent_reports_not_found (env : Env) (s : PackageManager) (containerID : String)
    (h : s.apps.contains containerID = false) :
    (Stop env s containerID).1
        = [{ code := RetCode.user_input_param_err,
             message := "containerID:" ++ containerID ++ " not exist", state := false }]
      ∧ (∀ m ∈ (Stop env s containerID).1, m.state = false)
      ∧ (Stop env s containerID).1.length = 1
      ∧ (Stop env s containerID).2.signals = s.signals
      ∧ (Stop env s containerID).2.apps = s.apps
      ∧ (Stop env s containerID).2 = s := by
  have hf := QMap.find_eq_none_of_contains_eq_false s.apps containerID h
  simp [Stop, hf]

theorem Stop_absent_reports_not_found_witness :
    sampleState.apps.contains "nonexistent-id" = false
      ∧ (Stop sampleEnv sampleState "nonexistent-id").1
          = [{ code := RetCode.user_input_param_err,
               message := "containerID:" ++ "nonexistent-id" ++ " not exist", state := false }]
      ∧ (Stop sampleEnv sampleState "nonexistent-id").2.apps = sampleState.apps :=
  have h : sampleState.apps.contains "nonexistent-id" = false := by decide
  ⟨h, (Stop_absent_reports_not_found sampleEnv sampleState "nonexistent-id" h).1,
    (Stop_absent_reports_not_found sampleEnv sampleState "nonexistent-id" h).2.2.2.2.1⟩

/-- C2: for every registry state and every containerID present in it, if
kill on the PID of its handle returns non-zero, Stop reports the kill failure
(one message, state false) and the registry after the call equals the registry
before it and still contains the containerID. -/
theorem Stop_kill_failure_keeps_registry (env : Env) (s : PackageManager)
    (containerID : String) (app : App)
    (hpresent : s.apps.find containerID = some app)
    (hkill : env.kill app.container.PID SIGKILL ≠ 0) :
    (Stop env s containerID).1
        = [{ code := RetCode.ErrorPkgKillFailed,
             message := "kill container failed, containerID:" ++ containerID, state := false }]
      ∧ (∀ m ∈ (Stop env s containerID).1, m.state = false)
      ∧ (Stop env s containerID).2.apps = s.apps
      ∧ (Stop env s containerID).2.apps.contains containerID = true
      ∧ (Stop env s containerID).2.signals = s.signals ++ [(app.container.PID, SIGKILL)] := by
  have hc := QMap.contains_eq_true_of_find_eq_some s.apps containerID app hpresent
  simp [Stop, hpresent, hkill, hc]

theorem Stop_kill_failure_keeps_registry_witness :
    sampleState.apps.find "c1" = some sampleApp
      ∧ (Stop { sampleEnv with kill := fun _ _ => -1 } sampleState "c1").1
          = [{ code := RetCode.ErrorPkgKillFailed,
               message := "kill container failed, containerID:" ++ "c1", state := false }]
      ∧ (Stop { sampleEnv with kill := fun _ _ => -1 } sampleState "c1").2.apps
          = sampleState.apps :=
  have h : sampleState.apps.find "c1" = some sampleApp := by decide
  have r := Stop_kill_failure_keeps_registry { sampleEnv with kill := fun _ _ => -1 }
    sampleState "c1" sampleApp h (by decide)
  ⟨h, r.1, r.2.2.1⟩

/-- C3: for every registry state and every containerID present in it, if
kill on the PID of its handle returns 0, Stop returns no failure message and
the registry afterwards is the prior registry with exactly that key removed:
the ID is absent, every other entry is unchanged, and a second Stop with the
same ID (whatever kill would do then) reports that the container does not
exist. -/
theorem Stop_kill_success_removes (env env2 : Env) (s : PackageManager)
    (containerID : String) (app : App)
    (hpresent : s.apps.find containerID = some app)
    (hkill : env.kill app.container.PID SIGKILL = 0) :
    (Stop env s containerID).1 = []
      ∧ (Stop env s containerID).2.apps.entries
          = s.apps.entries.filter (fun e => e.1 != containerID)
      ∧ (Stop env s containerID).2.apps.contains containerID = false
      ∧ (∀ k, k ≠ containerID → (Stop env s containerID).2.apps.find k = s.apps.find k)
      ∧ (Stop env2 (Stop env s containerID).2 containerID).1
          = [{ code := RetCode.user_input_param_err,
               message := "containerID:" ++ containerID ++ " not exist", state := false }]
      ∧ (Stop env2 (Stop env s containerID).2 containerID).2 = (Stop env s containerID).2 := by
  have hstop : Stop env s containerID
      = ([], { s with signals := s.signals ++ [(app.container.PID, SIGKILL)],
                      apps := s.apps.remove containerID }) := by
    simp [Stop, hpresent, hkill]
  have hgone : (s.apps.remove containerID).find containerID = none :=
    QMap.find_eq_none_of_contains_eq_false _ _ (QMap.contains_remove_self s.apps containerID)
  refine ⟨by rw [hstop], by rw [hstop]; rfl, ?_, ?_, ?_, ?_⟩
  · rw [hstop]; exact QMap.contains_remove_self s.apps containerID
  · intro k hk
    rw [hstop]; exact QMap.find_remove_of_ne s.apps containerID k hk
  · rw [hstop]; simp [Stop, hgone]
  · rw [hstop]; simp [Stop, hgone]

theorem Stop_kill_success_removes_witness :
    sampleState.apps.find "c1" = some sampleApp
      ∧ (Stop sampleEnv sampleState "c1").1 = []
      ∧ (Stop sampleEnv sampleState "c1").2.apps.contains "c1" = false :=
  have h : sampleState.apps.find "c1" = some sampleApp := by decide
  have r := Stop_kill_success_removes sampleEnv sampleEnv sampleState "c1" sampleApp h
    (by decide)
  ⟨h, r.1, r.2.2.1⟩

/-! ## Start and its job -/

/-- The job in terms of what it has built: nothing built leaves the state as
it is, a built handle is stored under its container ID and started. -/
theorem runJob_eq (env : Env) (s : PackageManager) (j : Job) :
    runJob env s j =
      match j.built env with
      | none => s
      | some app =>
        { s with apps := s.apps.insert app.container.ID (app.afterStart (env.start app)),
                 launches := s.launches ++ [app] } := by
  unfold runJob Job.built
  cases hfe : env.fileExists (j.configPath env) <;> simp [hfe]

/-- C4, as stated, fails: with the configuration present and `App::load`
handing out a handle for `c1`, a launch failure leaves the registry with an
entry for `c1` that was not there before the job. -/
theorem runJob_launch_failure_registers :
    sampleJob.built sampleEnv = some sampleReload
      ∧ sampleEnv.start sampleReload = none
      ∧ emptyState.apps.contains "c1" = false
      ∧ (runJob sampleEnv emptyState sampleJob).apps.contains "c1" = true
      ∧ (runJob sampleEnv emptyState sampleJob).apps ≠ emptyState.apps := by
  decide

/-- C4, amended: if building the application fails (the configuration file is
missing or `App::load` returns no handle), the job leaves the registry, and
the whole service state, as it was and starts nothing; if a handle was built,
it is in the registry under its container ID after the job whatever the launch
returned. -/
theorem runJob_build_failure_frame (env : Env) (s : PackageManager) (j : Job) :
    (j.built env = none →
        runJob env s j = s ∧ (runJob env s j).apps = s.apps
          ∧ (runJob env s j).launches = s.launches)
      ∧ (∀ app, j.built env = some app →
          (runJob env s j).apps.find app.container.ID = some (app.afterStart (env.start app))
            ∧ (runJob env s j).apps.contains app.container.ID = true
            ∧ (runJob env s j).launches = s.launches ++ [app]) := by
  refine ⟨fun h => ?_, fun app h => ?_⟩
  · simp [runJob_eq, h]
  · have hfind := QMap.find_insert_self s.apps app.container.ID (app.afterStart (env.start app))
    refine ⟨?_, ?_, ?_⟩
    · simpa [runJob_eq, h] using hfind
    · have := QMap.contains_eq_true_of_find_eq_some _ _ _ hfind
      simpa [runJob_eq, h] using this
    · simp [runJob_eq, h]

theorem runJob_build_failure_frame_witness :
    sampleJob.built { sampleEnv with load := fun _ _ _ => none } = none
      ∧ runJob { sampleEnv with load := fun _ _ _ => none } sampleState sampleJob = sampleState
      ∧ sampleJob.built sampleEnv = some sampleReload
      ∧ (runJob sampleEnv emptyState sampleJob).apps.contains "c1" = true :=
  have h1 : sampleJob.built { sampleEnv with load := fun _ _ _ => none } = none := by decide
  have h2 : sampleJob.built sampleEnv = some sampleReload := by decide
  ⟨h1, ((runJob_build_failure_frame { sampleEnv with load := fun _ _ _ => none }
      sampleState sampleJob).1 h1).1,
    h2, ((runJob_build_failure_frame sampleEnv emptyState sampleJob).2 sampleReload h2).2.1⟩

/-- C5: for every packageID and parameter map, if the installed-status check
says the application is not installed, Start returns exactly one failure
message with code pkg_not_installed and state false, hands no job to the job
engine and leaves the registry (indeed the whole service state) unchanged. -/
theorem Start_not_installed (env : Env) (s : PackageManager) (packageID : String)
    (paramMap : ParamStringMap)
    (h : env.getAppInstalledStatus packageID (paramOr paramMap env.KEY_VERSION "") ""
          env.getUserName = false) :
    (Start env s packageID paramMap).1
        = [{ code := RetCode.pkg_not_installed, message := packageID ++ " not installed",
             state := false }]
      ∧ (Start env s packageID paramMap).1.length = 1
      ∧ (Start env s packageID paramMap).2.jobs = s.jobs
      ∧ (Start env s packageID paramMap).2.apps = s.apps
      ∧ (Start env s packageID paramMap).2 = s := by
  simp [Start, h]

theorem Start_not_installed_witness :
    ({ sampleEnv with getAppInstalledStatus := fun _ _ _ _ => false } : Env).getAppInstalledStatus
        "org.test.app2" (paramOr QMap.empty "version" "") "" "user" = false
      ∧ (Start { sampleEnv with getAppInstalledStatus := fun _ _ _ _ => false } sampleState
          "org.test.app2" QMap.empty).1
          = [{ code := RetCode.pkg_not_installed,
               message := "org.test.app2" ++ " not installed", state := false }]
      ∧ (Start { sampleEnv with getAppInstalledStatus := fun _ _ _ _ => false } sampleState
          "org.test.app2" QMap.empty).2 = sampleState :=
  have r := Start_not_installed { sampleEnv with getAppInstalledStatus := fun _ _ _ _ => false }
    sampleState "org.test.app2" QMap.empty rfl
  ⟨rfl, r.1, r.2.2.2.2⟩

/-! ## ListContainer -/

/-- C6: for every registry state, ListContainer returns one element per
registry entry, in the order of the entries, each carrying the container ID
and the PID of the handle of that entry; the length of the list is the number
of registry entries and the service state is unchanged by the call. -/
theorem ListContainer_lists_every_entry (s : PackageManager) :
    (ListContainer s).1
        = s.apps.entries.map (fun e => { ID := e.2.container.ID, PID := e.2.container.PID })
      ∧ (ListContainer s).1.length = s.apps.size
      ∧ (∀ i (h : i < s.apps.entries.length),
          (ListContainer s).1[i]? = some (s.apps.entries.get ⟨i, h⟩).2.container)
      ∧ (ListContainer s).2.apps = s.apps
      ∧ (ListContainer s).2 = s := by
  refine ⟨?_, ?_, ?_, rfl, rfl⟩
  · simp [ListContainer, QMap.values, List.map_map, Function.comp_def]
  · simp [ListContainer, QMap.values, QMap.size]
  · intro i h
    simp [ListContainer, QMap.values, List.getElem?_eq_getElem, h]

/-! ## Insertion under a key already present -/

/-- C7, as stated, fails: the registry holds `sampleApp` (process 100) under
`c1`; a job that loads another handle naming `c1` and starts it as process 200
ends with that new handle under `c1`, the earlier one replaced, and the
assignment itself puts the new handle in place of the old. -/
theorem insert_existing_key_replaces :
    sampleState.apps.contains "c1" = true
      ∧ sampleState.apps.find "c1" = some sampleApp
      ∧ (sampleState.apps.insert "c1" sampleReload).find "c1" = some sampleReload
      ∧ sampleReload ≠ sampleApp
      ∧ (runJob { sampleEnv with start := fun _ => some 200 } sampleState sampleJob).apps.find "c1"
          = some { container := { ID := "c1", PID := 200 } }
      ∧ (runJob { sampleEnv with start := fun _ => some 200 } sampleState sampleJob).apps.find "c1"
          ≠ some sampleApp := by
  decide

/-- C7, amended: for every registry state (keys ascending, as a QMap keeps
them), assigning a handle under a containerID that is already a key of the
registry replaces the handle stored for that ID by the new one; the set of
keys and the number of entries stay the same and the handle of every other ID
is as it was. No failure is raised. -/
theorem insert_existing_key_overwrites (m : QMap App) (containerID : String) (app : App)
    (hwf : m.WF) (h : m.contains containerID = true) :
    (m.insert containerID app).find containerID = some app
      ∧ (m.insert containerID app).keys = m.keys
      ∧ (m.insert containerID app).size = m.size
      ∧ (∀ k, k ≠ containerID → (m.insert containerID app).find k = m.find k) := by
  have hkeys := QMap.keys_insert_of_contains m containerID app hwf h
  refine ⟨QMap.find_insert_self m containerID app, hkeys, ?_, fun k hk => ?_⟩
  · have := congrArg List.length hkeys
    simpa [QMap.keys, QMap.size] using this
  · exact QMap.find_insert_of_ne m containerID k app hk

theorem insert_existing_key_overwrites_witness :
    sampleState.apps.contains "c1" = true
      ∧ (sampleState.apps.insert "c1" sampleReload).find "c1" = some sampleReload :=
  have h : sampleState.apps.contains "c1" = true := by decide
  have hwf : sampleState.apps.WF := by
    simp [QMap.WF, QMap.keys, sampleState, QMap.insert, QMap.insertEntry, QMap.empty]
  ⟨h, (insert_existing_key_overwrites sampleState.apps "c1" sampleReload hwf h).1⟩

/-- C8 at the failing input: Start with an empty packageID never answers with
code user_input_param_err; where the installed-status check passes it returns
no message at all and queues a job for the empty packageID, and where the
check fails the single message carries code pkg_not_installed. -/
theorem Start_empty_packageID_not_rejected :
    (∀ (env : Env) (s : PackageManager) (paramMap : ParamStringMap),
        ∀ m ∈ (Start env s "" paramMap).1, m.code ≠ RetCode.user_input_param_err)
      ∧ Start sampleEnv emptyState "" QMap.empty
          = ([], { emptyState with
                    jobs := [{ packageID := "", version := "", desktopExec := "",
                               paramMap := QMap.empty }] })
      ∧ (Start { sampleEnv with getAppInstalledStatus := fun _ _ _ _ => false } emptyState ""
          QMap.empty).1
          = [{ code := RetCode.pkg_not_installed, message := " not installed", state := false }] := by
  refine ⟨?_, by decide, by decide⟩
  intro env s paramMap m hm
  unfold Start at hm
  cases hst : env.getAppInstalledStatus "" (paramOr paramMap env.KEY_VERSION "") "" env.getUserName
  · simp [hst] at hm
    simp [hm]
  · simp [hst] at hm

/-! ## Round trip of the runtime model -/

theorem JsonValue.readAll_map {α : Type} (f : JsonValue → Option α) (g : α → JsonValue)
    (h : ∀ x, f (g x) = some x) (l : List α) : JsonValue.readAll f (l.map g) = some l := by
  induction l with
  | nil => rfl
  | cons x xs ih => simp [JsonValue.readAll, h, ih]

theorem JsonValue.asStrings_ofStrings (l : List String) :
    (JsonValue.ofStrings l).asStrings = some l := by
  simp only [JsonValue.ofStrings, JsonValue.asStrings, JsonValue.asList]
  exact JsonValue.readAll_map JsonValue.asString JsonValue.str (fun _ => rfl) l

theorem Root_fromJson_toJson (x : Root) : Root.fromJson x.toJson = some x := by
  simp [Root.fromJson, Root.toJson, JsonValue.field, JsonValue.asString, JsonValue.asBool]

theorem Namespace_fromJson_toJson (x : Namespace) : Namespace.fromJson x.toJson = some x := by
  simp [Namespace.fromJson, Namespace.toJson, JsonValue.field, JsonValue.asString]

theorem IDMap_fromJson_toJson (x : IDMap) : IDMap.fromJson x.toJson = some x := by
  simp [IDMap.fromJson, IDMap.toJson, JsonValue.field, JsonValue.asNat]

theorem Linux_fromJson_toJson (x : Linux) : Linux.fromJson x.toJson = some x := by
  simp [Linux.fromJson, Linux.toJson, JsonValue.field, JsonValue.asList,
    JsonValue.readAll_map _ _ Namespace_fromJson_toJson,
    JsonValue.readAll_map _ _ IDMap_fromJson_toJson]

theorem Process_fromJson_toJson (x : Process) : Process.fromJson x.toJson = some x := by
  simp [Process.fromJson, Process.toJson, JsonValue.field, JsonValue.asString,
    JsonValue.asStrings_ofStrings]

theorem Mount_fromJson_toJson (x : Mount) : Mount.fromJson x.toJson = some x := by
  simp [Mount.fromJson, Mount.toJson, JsonValue.field, JsonValue.asString,
    JsonValue.asStrings_ofStrings]

theorem Hook_fromJson_toJson (x : Hook) : Hook.fromJson x.toJson = some x := by
  simp [Hook.fromJson, Hook.toJson, JsonValue.field, JsonValue.asString,
    JsonValue.asStrings_ofStrings]

theorem Hooks_fromJson_toJson (x : Hooks) : Hooks.fromJson x.toJson = some x := by
  simp [Hooks.fromJson, Hooks.toJson, JsonValue.field, JsonValue.asList,
    JsonValue.readAll_map _ _ Hook_fromJson_toJson]

theorem Runtime_fromJson_toJson (x : Runtime) : Runtime.fromJson x.toJson = some x := by
  simp [Runtime.fromJson, Runtime.toJson, JsonValue.field, JsonValue.asString, JsonValue.asList,
    Root_fromJson_toJson, Process_fromJson_toJson, Linux_fromJson_toJson, Hooks_fromJson_toJson,
    JsonValue.readAll_map _ _ Mount_fromJson_toJson]

/-! ## Structural checks -/

theorem hasDuplicate_eq_false_iff (l : List String) : hasDuplicate l = false ↔ l.Nodup := by
  induction l with
  | nil => simp [hasDuplicate]
  | cons x xs ih =>
    simp only [hasDuplicate, Bool.or_eq_false_iff, List.nodup_cons, ih]
    constructor
    · rintro ⟨h1, h2⟩
      refine ⟨fun hmem => ?_, h2⟩
      have : xs.contains x = true := by simpa using hmem
      rw [h1] at this
      cases this
    · rintro ⟨h1, h2⟩
      refine ⟨?_, h2⟩
      cases hc : xs.contains x with
      | false => rfl
      | true => exact absurd (by simpa using hc) h1

theorem hasDuplicate_of_get_eq {α : Type} (l : List α) (f : α → String)
    (i j : Fin l.length) (hij : i ≠ j) (h : f (l.get i) = f (l.get j)) :
    hasDuplicate (l.map f) = true := by
  cases hd : hasDuplicate (l.map f) with
  | true => rfl
  | false =>
    have hnd : (l.map f).Nodup := (hasDuplicate_eq_false_iff _).1 hd
    have hl : l.Nodup := List.Nodup.of_map f hnd
    have heq : l.get i = l.get j :=
      List.inj_on_of_nodup_map hnd (List.get_mem l i.1 i.2) (List.get_mem l j.1 j.2) h
    exact absurd (List.nodup_iff_injective_get.1 hl heq) hij

theorem Runtime.check_eq_true_iff (r : Runtime) : r.check = true ↔ r.Valid := by
  simp only [Runtime.check, Runtime.Valid, Bool.and_eq_true, Bool.not_eq_true',
    hasDuplicate_eq_false_iff, List.all_eq_true, bne_iff_ne, ne_eq, List.isEmpty_eq_false,
    Nat.pos_iff_ne_zero, and_assoc]

/-- C9: for every valid Runtime value S (args not empty, mount destinations
unique, namespace types unique, every ID-mapping size positive), reading back
the serialized form of S succeeds and yields S itself, equal on every member
down to the nested Root, Process, Mount, Linux, Namespace, IDMap, Hooks and
Hook members. -/
theorem deserialize_serialize (S : Runtime) (h : S.Valid) :
    deserialize (serialize S) = Except.ok S := by
  have hc : S.check = true := (Runtime.check_eq_true_iff S).2 h
  simp [deserialize, serialize, Runtime_fromJson_toJson, Runtime.construct, hc]

theorem deserialize_serialize_witness :
    sampleRuntime.Valid ∧ deserialize (serialize sampleRuntime) = Except.ok sampleRuntime :=
  have h : sampleRuntime.Valid := (Runtime.check_eq_true_iff sampleRuntime).1 (by decide)
  ⟨h, deserialize_serialize sampleRuntime h⟩

/-- C10: constructing a Runtime specification whose process args list is
empty, or that has two mounts with the same destination, or two namespaces of
the same type, fails with InvalidSpec: construction hands out no
specification, reading the serialized members back fails the same way, a load
built on the construction returns no handle, and a Start job with such a load
registers nothing and launches nothing. -/
theorem construct_rejects_invalid (r : Runtime)
    (h : r.process.args = []
      ∨ (∃ i j : Fin r.mounts.length,
          i ≠ j ∧ (r.mounts.get i).destination = (r.mounts.get j).destination)
      ∨ (∃ i j : Fin r.linux.namespaces.length,
          i ≠ j ∧ (r.linux.namespaces.get i).type = (r.linux.namespaces.get j).type)) :
    r.construct = Except.error ErrorKind.InvalidSpec
      ∧ (∀ v, r.construct ≠ Except.ok v)
      ∧ deserialize (serialize r) = Except.error ErrorKind.InvalidSpec
      ∧ (∀ mk, loadSpec r mk = none)
      ∧ (∀ (env : Env) (mk : Runtime → App) (s : PackageManager) (j : Job),
          runJob { env with load := fun _ _ _ => loadSpec r mk } s j = s) := by
  have hc : r.check = false := by
    rcases h with h | ⟨i, j, hij, h⟩ | ⟨i, j, hij, h⟩
    · simp [Runtime.check, h]
    · have := hasDuplicate_of_get_eq r.mounts (fun m => m.destination) i j hij h
      simp [Runtime.check, this]
    · have := hasDuplicate_of_get_eq r.linux.namespaces (fun n => n.type) i j hij h
      simp [Runtime.check, this]
  have hcons : r.construct = Except.error ErrorKind.InvalidSpec := by
    simp [Runtime.construct, hc]
  have hload : ∀ mk, loadSpec r mk = none := fun mk => by simp [loadSpec, hcons]
  refine ⟨hcons, ?_, ?_, hload, ?_⟩
  · intro v hv
    rw [hcons] at hv
    cases hv
  · simp [deserialize, serialize, Runtime_fromJson_toJson, hcons]
  · intro env mk s j
    have hb : j.built { env with load := fun _ _ _ => loadSpec r mk } = none := by
      simp [Job.built, hload]
    simp [runJob_eq, hb]

theorem construct_rejects_invalid_witness :
    (∃ i j : Fin sampleTwoMounts.mounts.length,
        i ≠ j ∧ (sampleTwoMounts.mounts.get i).destination
          = (sampleTwoMounts.mounts.get j).destination)
      ∧ sampleTwoMounts.construct = Except.error ErrorKind.InvalidSpec :=
  have h : ∃ i j : Fin sampleTwoMounts.mounts.length,
      i ≠ j ∧ (sampleTwoMounts.mounts.get i).destination
        = (sampleTwoMounts.mounts.get j).destination :=
    ⟨⟨0, by decide⟩, ⟨1, by decide⟩, by decide, by decide⟩
  ⟨h, (construct_rejects_invalid sampleTwoMounts (Or.inr (Or.inl h))).1⟩

/-! ## The registry over sequences of calls -/

theorem QMap.mem_insertEntry {α : Type} (key : String) (v : α) (l : List (String × α))
    (e : String × α) (h : e ∈ QMap.insertEntry key v l) : e = (key, v) ∨ e ∈ l := by
  induction l with
  | nil => simpa [QMap.insertEntry] using h
  | cons x rest ih =>
    obtain ⟨k, w⟩ := x
    simp only [QMap.insertEntry] at h
    split at h
    · rcases List.mem_cons.1 h with h | h
      · exact Or.inl h
      · exact Or.inr (List.mem_cons_of_mem _ h)
    · split at h
      · rcases List.mem_cons.1 h with h | h
        · exact Or.inl h
        · exact Or.inr h
      · rcases List.mem_cons.1 h with h | h
        · exact Or.inr (h ▸ List.mem_cons_self _ _)
        · rcases ih h with h | h
          · exact Or.inl h
          · exact Or.inr (List.mem_cons_of_mem _ h)

theorem QMap.WF_iff {α : Type} (m : QMap α) :
    m.WF ↔ m.entries.Pairwise (fun a b => a.1 < b.1) := by
  simp [QMap.WF, QMap.keys, List.pairwise_map]

theorem QMap.WF_insert {α : Type} (m : QMap α) (key : String) (v : α) (hwf : m.WF) :
    (m.insert key v).WF := by
  rw [QMap.WF_iff] at hwf ⊢
  cases m with
  | mk entries =>
    simp only [QMap.insert] at hwf ⊢
    induction entries with
    | nil => simp [QMap.insertEntry]
    | cons x rest ih =>
      obtain ⟨k, w⟩ := x
      rw [List.pairwise_cons] at hwf
      simp only [QMap.insertEntry]
      split
      · rename_i heq
        subst heq
        exact List.pairwise_cons.2 ⟨hwf.1, hwf.2⟩
      · rename_i hne
        split
        · rename_i hlt
          refine List.pairwise_cons.2 ⟨fun e he => ?_, List.pairwise_cons.2 hwf⟩
          rcases List.mem_cons.1 he with he | he
          · rw [he]; exact hlt
          · exact lt_trans hlt (hwf.1 e he)
        · rename_i hnlt
          have hkl : k < key := lt_of_le_of_ne (not_lt.1 hnlt) (fun h => hne h.symm)
          refine List.pairwise_cons.2 ⟨fun e he => ?_, ih hwf.2⟩
          rcases QMap.mem_insertEntry key v rest e he with he | he
          · rw [he]; exact hkl
          · exact hwf.1 e he

theorem QMap.WF_remove {α : Type} (m : QMap α) (key : String) (hwf : m.WF) :
    (m.remove key).WF := by
  rw [QMap.WF_iff] at hwf ⊢
  exact List.Pairwise.sublist (List.filter_sublist _) hwf

theorem QMap.find_eq_some_of_mem {α : Type} (m : QMap α) (hwf : m.WF) (k : String) (v : α)
    (h : (k, v) ∈ m.entries) : m.find k = some v := by
  rw [QMap.WF_iff] at hwf
  cases m with
  | mk entries =>
    simp only [QMap.find] at hwf h ⊢
    induction entries with
    | nil => cases h
    | cons x rest ih =>
      obtain ⟨k0, w⟩ := x
      rw [List.pairwise_cons] at hwf
      rcases List.mem_cons.1 h with h | h
      · cases h
        simp [List.find?_cons]
      · have hlt : k0 < k := hwf.1 (k, v) h
        have hb : (k0 == k) = false := by
          simp only [beq_eq_false_iff_ne, ne_eq]
          exact ne_of_lt hlt
        simp only [List.find?_cons, hb]
        exact ih hwf.2 h

theorem KeyedByID_insert (m : QMap App) (app : App) (pid : Option Int) (h : KeyedByID m) :
    KeyedByID (m.insert app.container.ID (app.afterStart pid)) := by
  intro e he
  rcases QMap.mem_insertEntry _ _ _ e he with he | he
  · rw [he]
    cases pid <;> rfl
  · exact h e he

theorem KeyedByID_remove (m : QMap App) (key : String) (h : KeyedByID m) :
    KeyedByID (m.remove key) := by
  intro e he
  exact h e (List.mem_of_mem_filter he)

/-- Every step keeps the registry ordered by key and keyed by container ID. -/
theorem Op.apply_preserves (s : PackageManager) (op : Op)
    (h : s.apps.WF ∧ KeyedByID s.apps) :
    (op.apply s).apps.WF ∧ KeyedByID (op.apply s).apps := by
  cases op with
  | start env packageID paramMap =>
    simp only [Op.apply, Start]
    split <;> exact h
  | job env j =>
    simp only [Op.apply, runJob_eq]
    cases j.built env with
    | none => exact h
    | some app => exact ⟨QMap.WF_insert _ _ _ h.1, KeyedByID_insert _ _ _ h.2⟩
  | stop env containerID =>
    simp only [Op.apply, Stop]
    cases s.apps.find containerID with
    | none => exact h
    | some app =>
      simp only
      split
      · exact ⟨QMap.WF_remove _ _ h.1, KeyedByID_remove _ _ h.2⟩
      · exact h
  | list => exact h

theorem run_preserves (ops : List Op) (s : PackageManager)
    (h : s.apps.WF ∧ KeyedByID s.apps) :
    (run ops s).apps.WF ∧ KeyedByID (run ops s).apps := by
  induction ops generalizing s with
  | nil => exact h
  | cons op rest ih => exact ih (op.apply s) (Op.apply_preserves s op h)

/-- C12: in every registry state reached from the empty registry by any
sequence of Start calls, job runs, Stop calls and ListContainer calls, each
registry key equals the container ID stored in the handle it maps to; the IDs
ListContainer reports are the registry keys, pairwise distinct, and for each
reported container Stop finds the ID present: the lookup yields the handle
with that ID and PID, Stop does not answer that the container does not exist
and it signals the reported PID. -/
theorem reachable_registry_keyed_by_ID (ops : List Op) :
    KeyedByID (run ops emptyState).apps
      ∧ (ListContainer (run ops emptyState)).1.map (fun c => c.ID)
          = (run ops emptyState).apps.keys
      ∧ ((ListContainer (run ops emptyState)).1.map (fun c => c.ID)).Nodup
      ∧ (∀ c ∈ (ListContainer (run ops emptyState)).1,
          (run ops emptyState).apps.contains c.ID = true
            ∧ (run ops emptyState).apps.find c.ID = some { container := c }
            ∧ (∀ env : Env, ∀ m ∈ (Stop env (run ops emptyState) c.ID).1,
                m.code ≠ RetCode.user_input_param_err)
            ∧ (∀ env : Env, (Stop env (run ops emptyState) c.ID).2.signals
                = (run ops emptyState).signals ++ [(c.PID, SIGKILL)])) := by
  have hinit : emptyState.apps.WF ∧ KeyedByID emptyState.apps := by
    constructor
    · simp [QMap.WF, QMap.keys, emptyState, QMap.empty]
    · intro e he
      simp [emptyState, QMap.empty] at he
  obtain ⟨hwf, hkey⟩ := run_preserves ops emptyState hinit
  generalize run ops emptyState = s at hwf hkey ⊢
  have hids : (ListContainer s).1.map (fun c => c.ID) = s.apps.keys := by
    simp only [ListContainer, QMap.values, QMap.keys, List.map_map]
    exact List.map_congr_left (fun e he => (hkey e he).symm)
  refine ⟨hkey, hids, ?_, ?_⟩
  · rw [hids]
    exact List.Pairwise.imp (fun h => ne_of_lt h) hwf
  · intro c hc
    simp only [ListContainer, QMap.values, List.map_map, List.mem_map, Function.comp_apply] at hc
    obtain ⟨e, he, rfl⟩ := hc
    obtain ⟨k, app⟩ := e
    have hk : k = app.container.ID := hkey (k, app) he
    subst hk
    have hfind : s.apps.find app.container.ID = some app :=
      QMap.find_eq_some_of_mem s.apps hwf _ _ he
    refine ⟨QMap.contains_eq_true_of_find_eq_some _ _ _ hfind, hfind, ?_, ?_⟩
    · intro env m hm
      simp only [Stop, hfind] at hm
      split at hm
      · cases hm
      · rw [List.mem_singleton.1 hm]
        simp
    · intro env
      simp only [Stop, hfind]
      split <;> rfl

theorem reachable_registry_keyed_by_ID_witness :
    (ListContainer (run [Op.job { sampleEnv with start := fun _ => some 200 } sampleJob,
        Op.start sampleEnv "org.test.app1" QMap.empty, Op.list] emptyState)).1
        = [{ ID := "c1", PID := 200 }]
      ∧ (run [Op.job { sampleEnv with start := fun _ => some 200 } sampleJob,
          Op.start sampleEnv "org.test.app1" QMap.empty, Op.list] emptyState).apps.find "c1"
        = some { container := { ID := "c1", PID := 200 } } :=
  have hl : (ListContainer (run [Op.job { sampleEnv with start := fun _ => some 200 } sampleJob,
      Op.start sampleEnv "org.test.app1" QMap.empty, Op.list] emptyState)).1
      = [{ ID := "c1", PID := 200 }] := by decide
  ⟨hl, ((reachable_registry_keyed_by_ID
      [Op.job { sampleEnv with start := fun _ => some 200 } sampleJob,
        Op.start sampleEnv "org.test.app1" QMap.empty, Op.list]).2.2.2
      { ID := "c1", PID := 200 } (by rw [hl]; exact List.mem_singleton.2 rfl)).2.1⟩

end Linglong
